import Mathlib

/-!
Verification of the `json-schema-references` extension core
(`src/extension.ts`): JSON Pointer parsing, `$ref` locator/URI resolution,
tree navigation, schema-metadata extraction, the bulk validation scan and
the interactive reference lookup. The TypeScript functions are embedded
shallowly as executable Lean definitions; external collaborators (the
`jsonc-parser` syntax-tree primitives, the VS Code URI/path helpers and the
document loader) are modelled from their documented contracts, since their
code is not part of this repository.
-/

set_option maxHeartbeats 1000000

/-- Node kinds of the `jsonc-parser` syntax tree (`Node.type` in the source:
`object | array | property | string | number | boolean | null`). -/
inductive NodeType : Type where
  | object
  | array
  | property
  | string
  | number
  | boolean
  | null
deriving DecidableEq, Repr

/-- Scalar payload of a syntax node (`Node.value`): a JS string, number,
boolean, or null.  Numbers are modelled as integers (the JSON documents the
claims exercise only carry integral numbers). -/
inductive JValue : Type where
  | s (v : String)
  | n (v : Int)
  | b (v : Bool)
  | null
deriving DecidableEq, Repr

mutual
/-- A parsed JSON syntax-tree node (`jsonc-parser`'s `Node`): kind, scalar
value, source offset/length, ordered children.  Parent back-references are
not stored; the offset-lookup below tracks the parent during descent
instead. -/
inductive JsonNode : Type where
  | mk (type : NodeType) (value : Option JValue) (offset : Nat) (length : Nat)
      (children : JsonNodeList)

/-- Ordered child list of a syntax node, as a mutual inductive so that all
tree recursions are structural (hence kernel-computable). -/
inductive JsonNodeList : Type where
  | nil
  | cons (head : JsonNode) (tail : JsonNodeList)
end

def JsonNode.type : JsonNode → NodeType
  | .mk t _ _ _ _ => t

def JsonNode.value : JsonNode → Option JValue
  | .mk _ v _ _ _ => v

def JsonNode.offset : JsonNode → Nat
  | .mk _ _ o _ _ => o

def JsonNode.length : JsonNode → Nat
  | .mk _ _ _ l _ => l

def JsonNode.children : JsonNode → JsonNodeList
  | .mk _ _ _ _ cs => cs

/-- Index lookup in a child list (`node.children?.[i]`). -/
def JsonNodeList.get? : JsonNodeList → Nat → Option JsonNode
  | .nil, _ => none
  | .cons h _, 0 => some h
  | .cons _ t, n + 1 => t.get? n

/-- Number of children (`node.children.length`). -/
def JsonNodeList.length : JsonNodeList → Nat
  | .nil => 0
  | .cons _ t => 1 + t.length

/-- View a child list as a plain Lean list (used only in specifications). -/
def JsonNodeList.toList : JsonNodeList → List JsonNode
  | .nil => []
  | .cons h t => h :: t.toList

/-- JS `String(value ?? '')` applied to a node's scalar payload: a missing
value and JS `null` both yield `""` (the `?? ''` default), strings pass
through, numbers and booleans print the JS way. -/
def jsString : Option JValue → String
  | none => ""
  | some (JValue.s v) => v
  | some (JValue.n v) => toString v
  | some (JValue.b v) => if v then "true" else "false"
  | some JValue.null => ""

/-- JS `String.prototype.trim` (modelled over ASCII whitespace). -/
def jsTrim (s : String) : String :=
  (((s.toList.dropWhile Char.isWhitespace).reverse.dropWhile Char.isWhitespace).reverse).asString

/-- Substring of the trimmed reference before its first `#`
(`trimmed.slice(0, hashIndex)`, the whole string when there is no `#`). -/
def filePartOf (trimmed : String) : String :=
  (trimmed.toList.takeWhile (fun c => c ≠ '#')).asString

/-- Substring of the trimmed reference after its first `#`
(`trimmed.slice(hashIndex + 1)`, empty when there is no `#`). -/
def pointerPartOf (trimmed : String) : String :=
  ((trimmed.toList.dropWhile (fun c => c ≠ '#')).drop 1).asString

/-- A decoded JSON Pointer segment: a string key or a numeric index
(the source's `Array<string | number>` element). -/
inductive Segment : Type where
  | str (s : String)
  | num (n : Nat)
deriving DecidableEq, Repr

/-- JS `segment.split('/')` (for the one-character separator `/`):
splitting the empty string yields `[""]`, and separators at either end
yield empty fields. -/
def splitOnSlash : List Char → List (List Char)
  | [] => [[]]
  | c :: cs =>
    let rest := splitOnSlash cs
    if c = '/' then [] :: rest
    else
      match rest with
      | r :: rs => (c :: r) :: rs
      | [] => [[c]]

/-- JS `str.replace(/ab/g, "r")` for a two-character pattern `ab` replaced by
the single character `r`: left-to-right, non-overlapping. -/
def replacePair (a b r : Char) : List Char → List Char
  | [] => []
  | [c] => [c]
  | c :: d :: cs =>
    if c = a ∧ d = b then r :: replacePair a b r cs
    else c :: replacePair a b r (d :: cs)

/-- `segment.replace(/~1/g, '/').replace(/~0/g, '~')` — the RFC 6901
unescaping order used by the source. -/
def unescapeSeg (cs : List Char) : List Char :=
  replacePair '~' '0' '~' (replacePair '~' '1' '/' cs)

/-- JS `Number(s)` on an all-digit string (exact, no float rounding). -/
def digitsToNat (cs : List Char) : Nat :=
  cs.foldl (fun acc c => acc * 10 + (c.toNat - '0'.toNat)) 0

/-- One mapped segment of `parseJsonPointer`: unescape, then convert an
all-digit segment (`/^\d+$/`) to a number, otherwise keep the string. -/
def decodeSegment (segment : List Char) : Segment :=
  let unescaped := unescapeSeg segment
  if unescaped ≠ [] ∧ unescaped.all Char.isDigit then Segment.num (digitsToNat unescaped)
  else Segment.str unescaped.asString

/-- `parseJsonPointer` from `src/extension.ts`: empty pointer yields `[]`;
one leading `/` is stripped; an empty remainder yields `[]`; otherwise the
remainder is split on `/` and each segment unescaped/converted. -/
def parseJsonPointer (pointer : String) : List Segment :=
  if pointer = "" then []
  else
    let cs := pointer.toList
    let normalized := match cs with
      | '/' :: rest => rest
      | _ => cs
    if normalized = [] then []
    else (splitOnSlash normalized).map decodeSegment

/-- Reference decode written exactly as claim C3 words it: strip at most one
leading `/`; split the remainder on `/` (the empty remainder having no
segments, per the claim's `decode("") = []`); unescape `~1` then `~0`;
convert all-digit segments to numbers. -/
def claimDecode (pointer : String) : List Segment :=
  let cs := pointer.toList
  let stripped := match cs with
    | '/' :: rest => rest
    | _ => cs
  if stripped = [] then []
  else (splitOnSlash stripped).map decodeSegment

/-- C3: `parseJsonPointer` agrees everywhere with the claim's description of
decode (strip one leading `/`, split on `/`, unescape `~1` before `~0`,
digit segments become numbers), and in particular `decode("") = []`,
`decode("/a/b") = ["a","b"]`, `decode("/0/1") = [0,1]`,
`decode("/a~1b/c~0d") = ["a/b","c~d"]`, and the segment `~01` decodes to
`~1`, not `/`. -/
theorem claim_C3_pointer_decode :
    (∀ pointer : String, parseJsonPointer pointer = claimDecode pointer) ∧
    parseJsonPointer "" = [] ∧
    parseJsonPointer "/a/b" = [Segment.str "a", Segment.str "b"] ∧
    parseJsonPointer "/0/1" = [Segment.num 0, Segment.num 1] ∧
    parseJsonPointer "/a~1b/c~0d" = [Segment.str "a/b", Segment.str "c~d"] ∧
    parseJsonPointer "/~01" = [Segment.str "~1"] := by
  refine ⟨?_, by decide, by decide, by decide, by decide, by decide⟩
  intro pointer
  unfold parseJsonPointer claimDecode
  by_cases h : pointer = ""
  · subst h; decide
  · simp only [h, if_false]

/-- C8 counterexample: on the whitespace-only pointer `" "` the decoder does
not return the empty path — it returns the single segment `" "`. -/
theorem claim_C8_counterexample :
    parseJsonPointer " " ≠ [] ∧ parseJsonPointer " " = [Segment.str " "] := by
  decide

/-- C8 amended: decode returns the empty pointer path for the empty input
(and for the bare `"/"` input), but a whitespace-only input such as `" "`
yields the single whitespace segment `" "`. -/
theorem claim_C8_amended :
    parseJsonPointer "" = [] ∧ parseJsonPointer "/" = [] ∧
    parseJsonPointer " " = [Segment.str " "] := by
  decide

/-- A VS Code `Uri`, restricted to the components the extension consults:
scheme, authority, and path.  `Uri.file p` gives scheme `file`, empty
authority and path `p`; two identities are equal iff all components are. -/
structure Uri : Type where
  scheme : String
  authority : String
  path : String
deriving DecidableEq, Repr

/-- `vscode.Uri.file(path)`. -/
def Uri.file (p : String) : Uri :=
  { scheme := "file", authority := "", path := p }

/-- `uri.fsPath` for the local `file` URIs this extension produces: the
path component. -/
def Uri.fsPath (u : Uri) : String :=
  u.path

/-- Modelled from the spec: `vscode.Uri.parse` on the `scheme://...`-shaped
strings the code feeds it (the URI-pattern guard has already matched):
scheme is the part before the first `:`, authority the part between `//`
and the next `/`, path the rest. -/
def Uri.parse (s : String) : Uri :=
  let cs := s.toList
  let scheme := cs.takeWhile (fun c => c ≠ ':')
  let rest := ((cs.dropWhile (fun c => c ≠ ':')).drop 1).drop 2
  let authority := rest.takeWhile (fun c => c ≠ '/')
  let path := rest.dropWhile (fun c => c ≠ '/')
  { scheme := scheme.asString, authority := authority.asString, path := path.asString }

/-- A text document as the extension sees it: its URI and its text.  The
syntax tree is obtained by applying the ambient parser to the text. -/
structure Document : Type where
  uri : Uri
  text : String
deriving DecidableEq, Repr

/-- The external `jsonc-parser` `parseTree`: a pure function from text to an
optional syntax tree (`undefined` on unparsable input). -/
abbrev Parse : Type := String → Option JsonNode

/-- The external `vscode.workspace.openTextDocument` I/O: maps a target URI
to the loaded document, or fails (`none` models the thrown file-not-found
error). -/
abbrev Loader : Type := Uri → Option Document

/-- A character allowed after the first letter of a URI scheme by the
source's guard regex `[a-zA-Z+\-.]`. -/
def isSchemeChar (c : Char) : Bool :=
  c.isAlpha || c = '+' || c = '-' || c = '.'

/-- Helper for the scheme guard: does the remainder after the scheme run
start with `://`? -/
def startsWithColonSlashes : List Char → Bool
  | a :: b :: c :: _ => (a == ':') && (b == '/') && (c == '/')
  | _ => false

/-- The source's URI-scheme guard `/^[a-zA-Z][a-zA-Z+\-.]*:\/\//.test(filePart)`:
a letter, then scheme characters, then `://`.  Because the character class
excludes `:` and `/`, the greedy run is exact and no backtracking case
exists. -/
def schemePattern (s : String) : Bool :=
  match s.toList with
  | [] => false
  | c :: rest => c.isAlpha && startsWithColonSlashes (rest.dropWhile isSchemeChar)

/-- POSIX `path.isAbsolute` (the host the spec fixes is non-Windows). -/
def isAbsolutePosix (s : String) : Bool :=
  match s.toList with
  | c :: _ => c == '/'
  | [] => false

/-- The source's Windows drive guard `/^[a-zA-Z]:[\\/]/.test(filePart)`:
a letter, a colon, then a slash or backslash. -/
def drivePattern (s : String) : Bool :=
  match s.toList with
  | c :: d :: e :: _ => c.isAlpha && (d == ':') && ((e == '/') || (e == '\\'))
  | _ => false

/-- POSIX `path.dirname`, following Node's algorithm: scan from the end,
skip trailing slashes, skip the basename, and cut at the separator found
(with the root / `//` special cases). -/
def dirname (p : String) : String :=
  match p.toList with
  | [] => "."
  | c0 :: rest =>
    let hasRoot := c0 = '/'
    let t2 := (rest.reverse.dropWhile (fun c => c = '/')).dropWhile (fun c => c ≠ '/')
    if t2.isEmpty then (if hasRoot then "/" else ".")
    else if hasRoot ∧ t2.length = 1 then "//"
    else ((c0 :: rest).take t2.length).asString

/-- Normalization pass of POSIX `path.resolve`: drop empty and `.` segments,
let `..` pop the previous segment (and vanish at the absolute root). -/
def normalizeSegs (acc : List String) : List String → List String
  | [] => acc.reverse
  | s :: rest =>
    if s = "" ∨ s = "." then normalizeSegs acc rest
    else if s = ".." then
      match acc with
      | [] => normalizeSegs [] rest
      | _ :: acc' => normalizeSegs acc' rest
    else normalizeSegs (s :: acc) rest

/-- Join path segments with `/`. -/
def joinSegs : List String → String
  | [] => ""
  | [s] => s
  | s :: rest => s ++ "/" ++ joinSegs rest

/-- POSIX `path.resolve(baseDir, relPath)` for the shape the source uses:
`baseDir` is the absolute directory of an open file document and `relPath`
is relative, so the result is the normalized concatenation. -/
def pathResolve (baseDir relPath : String) : String :=
  let combined := baseDir ++ "/" ++ relPath
  let segs := normalizeSegs [] ((splitOnSlash combined.toList).map List.asString)
  "/" ++ joinSegs segs

/-- `resolveUri` from `src/extension.ts` (identical private copy in
`JsonRefNavigationProvider`): empty file part → the document's own URI;
URI-scheme pattern → parse and accept only the `file` scheme; POSIX
absolute path → that path; Windows drive-letter path → that path;
otherwise resolve relative to the document's directory. -/
def resolveUri (document : Document) (filePart : String) : Option Uri :=
  if filePart = "" then some document.uri
  else if schemePattern filePart then
    let parsed := Uri.parse filePart
    if parsed.scheme = "file" then some parsed else none
  else if isAbsolutePosix filePart then some (Uri.file filePart)
  else if drivePattern filePart then some (Uri.file filePart)
  else
    let baseDir := dirname document.uri.fsPath
    some (Uri.file (pathResolve baseDir filePart))

/-- C5: the locator refuses a reference only when its file part matches the
`scheme://` pattern and the parsed scheme is not `file`; every other file
part (empty, relative, or absolute) resolves to some candidate target
identity — existence of the target is not checked here. -/
theorem claim_C5_unresolvable_iff :
    ∀ (document : Document) (filePart : String),
      resolveUri document filePart = none ↔
        (schemePattern filePart = true ∧ (Uri.parse filePart).scheme ≠ "file") := by
  intro document filePart
  unfold resolveUri
  by_cases h0 : filePart = ""
  · simp [h0, schemePattern]
  · by_cases h1 : schemePattern filePart
    · by_cases h2 : (Uri.parse filePart).scheme = "file" <;> simp [h0, h1, h2]
    · simp only [h0, if_false, h1, Bool.false_eq_true]
      constructor
      · intro hcontra
        split at hcontra
        · exact Option.noConfusion hcontra
        · split at hcontra
          · exact Option.noConfusion hcontra
          · exact Option.noConfusion hcontra
      · rintro ⟨hpat, -⟩
        exact hpat.elim

/-- The base document of the spec's locator example, open at
`/work/a.json`. -/
def workDoc : Document :=
  { uri := Uri.file "/work/a.json", text := "W" }

/-- C6: the locator splits the trimmed reference at its first `#`; an empty
file part yields the base document's identity; a POSIX-absolute file part
yields that path; a Windows drive-letter file part (when it does not also
match the URI-scheme pattern, which the source checks first) yields that
path; any other non-empty file part resolves against the base document's
directory.  In particular, from `/work/a.json` the reference `b.json#/x`
yields identity `/work/b.json` with pointer path `["x"]`, and `#/x` yields
the base document's own identity. -/
theorem claim_C6_locator :
    (∀ document : Document, resolveUri document "" = some document.uri) ∧
    (∀ (document : Document) (filePart : String), isAbsolutePosix filePart = true →
        resolveUri document filePart = some (Uri.file filePart)) ∧
    (∀ (document : Document) (filePart : String), drivePattern filePart = true →
        schemePattern filePart = false →
        resolveUri document filePart = some (Uri.file filePart)) ∧
    (∀ (document : Document) (filePart : String), filePart ≠ "" →
        schemePattern filePart = false → isAbsolutePosix filePart = false →
        drivePattern filePart = false →
        resolveUri document filePart =
          some (Uri.file (pathResolve (dirname document.uri.fsPath) filePart))) ∧
    (filePartOf (jsTrim "b.json#/x") = "b.json" ∧
     pointerPartOf (jsTrim "b.json#/x") = "/x" ∧
     resolveUri workDoc "b.json" = some (Uri.file "/work/b.json") ∧
     parseJsonPointer "/x" = [Segment.str "x"]) ∧
    (filePartOf (jsTrim "#/x") = "" ∧
     resolveUri workDoc (filePartOf (jsTrim "#/x")) = some workDoc.uri) := by
  refine ⟨?_, ?_, ?_, ?_, by decide, by decide⟩
  · intro document
    unfold resolveUri
    simp
  · intro document filePart habs
    obtain ⟨rest, hl⟩ : ∃ rest, filePart.toList = '/' :: rest := by
      unfold isAbsolutePosix at habs
      cases hl' : filePart.toList with
      | nil => rw [hl'] at habs; cases habs
      | cons c rest =>
        rw [hl'] at habs
        have hc : c = '/' := by simpa using habs
        exact ⟨rest, by rw [hc]⟩
    have hne : filePart ≠ "" := by
      intro h
      rw [h] at hl
      exact List.noConfusion hl
    have hsch : schemePattern filePart = false := by
      unfold schemePattern
      rw [hl]
      rfl
    have habs' : isAbsolutePosix filePart = true := habs
    unfold resolveUri
    simp [hne, hsch, habs']
  · intro document filePart hdrive hsch
    have hdrive' := hdrive
    obtain ⟨c, d, e, rest, hl⟩ :
        ∃ c d e rest, filePart.toList = c :: d :: e :: rest := by
      unfold drivePattern at hdrive
      cases hl1 : filePart.toList with
      | nil => rw [hl1] at hdrive; cases hdrive
      | cons c t1 =>
        cases hl2 : t1 with
        | nil => rw [hl1, hl2] at hdrive; cases hdrive
        | cons d t2 =>
          cases hl3 : t2 with
          | nil => rw [hl1, hl2, hl3] at hdrive; cases hdrive
          | cons e rest => exact ⟨c, d, e, rest, rfl⟩
    have hshape : (c.isAlpha = true ∧ d = ':') ∧ (e = '/' ∨ e = '\\') := by
      unfold drivePattern at hdrive
      rw [hl] at hdrive
      simpa using hdrive
    have hne : filePart ≠ "" := by
      intro h
      rw [h] at hl
      exact List.noConfusion hl
    have habs : isAbsolutePosix filePart = false := by
      unfold isAbsolutePosix
      rw [hl]
      have : c ≠ '/' := by
        intro hc
        rw [hc] at hshape
        exact absurd hshape.1.1 (by decide)
      simpa using this
    unfold resolveUri
    simp [hne, hsch, habs, hdrive']
  · intro document filePart hne hsch habs hdrive
    unfold resolveUri
    simp [hne, hsch, habs, hdrive]

/-- Witness for C6: concrete applications of each guarded clause — an
absolute POSIX path, a Windows drive path, and a relative path from
`/work/a.json`. -/
theorem claim_C6_locator_witness :
    resolveUri workDoc "/abs/s.json" = some (Uri.file "/abs/s.json") ∧
    resolveUri workDoc "C:\\s\\x.json" = some (Uri.file "C:\\s\\x.json") ∧
    resolveUri workDoc "sub/c.json" = some (Uri.file "/work/sub/c.json") := by
  refine ⟨?_, ?_, ?_⟩
  · exact claim_C6_locator.2.1 workDoc "/abs/s.json" (by decide)
  · exact claim_C6_locator.2.2.1 workDoc "C:\\s\\x.json" (by decide) (by decide)
  · have h := claim_C6_locator.2.2.2.1 workDoc "sub/c.json" (by decide) (by decide)
      (by decide) (by decide)
    rw [h]
    decide

/-- Concatenation of child lists (used only in specification statements). -/
def JsonNodeList.append : JsonNodeList → JsonNodeList → JsonNodeList
  | .nil, ys => ys
  | .cons x xs, ys => .cons x (xs.append ys)

theorem JsonNodeList.toList_append : (a b : JsonNodeList) →
    (a.append b).toList = a.toList ++ b.toList
  | .nil, _ => rfl
  | .cons x xs, b => by
    simp [JsonNodeList.append, JsonNodeList.toList, JsonNodeList.toList_append xs b]

/-- Inner loop of `jsonc-parser`'s `findNodeAtLocation` for a string segment
(modelled from the spec's §4.3/§6 parser contract): scan the object's
children for one with exactly two children whose key node's value equals
the segment, and yield its value child. -/
def findProp (s : String) : JsonNodeList → Option JsonNode
  | .nil => none
  | .cons pc rest =>
    match pc.children with
    | .cons kn (.cons vn .nil) =>
      if kn.value = some (JValue.s s) then some vn else findProp s rest
    | _ => findProp s rest

/-- Modelled from the spec: `jsonc-parser`'s `findNodeAtLocation` descent
(§4.3 / §6 — the external locate-by-path primitive).  A string segment
selects the matching property's value child of an object; a numeric
segment selects the array child at that index; anything else is
`NotFound`. -/
def findNodeAtLocation (root : JsonNode) : List Segment → Option JsonNode
  | [] => some root
  | Segment.str s :: rest =>
    if root.type = NodeType.object then
      match findProp s root.children with
      | some vn => findNodeAtLocation vn rest
      | none => none
    else none
  | Segment.num i :: rest =>
    if root.type = NodeType.array then
      match root.children.get? i with
      | some c => findNodeAtLocation c rest
      | none => none
    else none

/-- `findTargetNode` from `src/extension.ts`: re-parse the target document's
text; the empty pointer designates the root; otherwise run the locate
primitive, and if the located node is a `property` with a value child,
return that value child instead. -/
def findTargetNode (p : Parse) (document : Document) (pointerSegments : List Segment) :
    Option JsonNode :=
  match p document.text with
  | none => none
  | some root =>
    if pointerSegments = [] then some root
    else
      match findNodeAtLocation root pointerSegments with
      | none => none
      | some located =>
        if located.type = NodeType.property then
          match located.children.get? 1 with
          | some vn => some vn
          | none => some located
        else some located

/-- The node `2` inside the spec's navigator example document. -/
def c4val2 : JsonNode :=
  .mk .number (some (.n 2)) 13 1 .nil

/-- Syntax tree of the spec's navigator example `{"a":{"b":[1,2,3]}}`, with
the source offsets of that text. -/
def tree4 : JsonNode :=
  .mk .object none 0 19 (.cons
    (.mk .property none 1 17 (.cons (.mk .string (some (.s "a")) 1 3 .nil) (.cons
      (.mk .object none 5 13 (.cons
        (.mk .property none 6 11 (.cons (.mk .string (some (.s "b")) 6 3 .nil) (.cons
          (.mk .array none 10 7 (.cons (.mk .number (some (.n 1)) 11 1 .nil) (.cons c4val2
            (.cons (.mk .number (some (.n 3)) 15 1 .nil) .nil))))
          .nil)))
        .nil))
      .nil)))
    .nil)

def doc4 : Document :=
  { uri := Uri.file "/doc4.json", text := "T4" }

def parse4 : Parse :=
  fun s => if s = "T4" then some tree4 else none

/-- C4: the navigator returns the root for the empty path; on the tree of
`{"a":{"b":[1,2,3]}}` the path `["a","b",1]` locates the node with value
`2` and `["a","x"]` is `NotFound`; and whenever the locate primitive
returns a `property` node (with a value child) for a non-empty path, the
navigator returns that property's value child instead. -/
theorem claim_C4_navigator :
    (∀ (p : Parse) (document : Document) (root : JsonNode),
        p document.text = some root → findTargetNode p document [] = some root) ∧
    findTargetNode parse4 doc4 [Segment.str "a", Segment.str "b", Segment.num 1] = some c4val2 ∧
    findTargetNode parse4 doc4 [Segment.str "a", Segment.str "x"] = none ∧
    (∀ (p : Parse) (document : Document) (root : JsonNode) (segs : List Segment)
        (located vn : JsonNode),
        p document.text = some root → segs ≠ [] →
        findNodeAtLocation root segs = some located →
        located.type = NodeType.property →
        located.children.get? 1 = some vn →
        findTargetNode p document segs = some vn) := by
  refine ⟨?_, rfl, rfl, ?_⟩
  · intro p document root h
    unfold findTargetNode
    rw [h]
    simp
  · intro p document root segs located vn hp hsegs hloc htype hget
    unfold findTargetNode
    rw [hp]
    simp [hsegs, hloc, htype, hget]

/-- A malformed-but-representable tree in which the locate primitive itself
returns a `property` node: the value slot of property `"a"` holds a
`property`-kind node.  Used to exercise C4's unwrapping clause. -/
def w4val : JsonNode :=
  .mk .number (some (.n 7)) 5 1 .nil

def w4prop : JsonNode :=
  .mk .property none 4 3 (.cons (.mk .string (some (.s "b")) 4 1 .nil) (.cons w4val .nil))

def w4tree : JsonNode :=
  .mk .object none 0 9 (.cons
    (.mk .property none 1 7 (.cons (.mk .string (some (.s "a")) 1 3 .nil) (.cons w4prop .nil)))
    .nil)

def w4doc : Document :=
  { uri := Uri.file "/w4.json", text := "W4" }

def parseW4 : Parse :=
  fun s => if s = "W4" then some w4tree else none

/-- Witness for C4: the empty-path clause at the example document, and the
property-unwrapping clause at a tree whose locate result is a `property`
node. -/
theorem claim_C4_navigator_witness :
    findTargetNode parse4 doc4 [] = some tree4 ∧
    findTargetNode parseW4 w4doc [Segment.str "a"] = some w4val := by
  constructor
  · exact claim_C4_navigator.1 parse4 doc4 tree4 rfl
  · exact claim_C4_navigator.2.2.2 parseW4 w4doc w4tree [Segment.str "a"] w4prop w4val
      rfl (by decide) rfl rfl rfl

/-- The `SchemaMetadata` record of `src/extension.ts`: optional title,
description, and type display string. -/
structure SchemaMetadata : Type where
  title : Option String := none
  description : Option String := none
  type : Option String := none
deriving DecidableEq, Repr

/-- One iteration of `extractSchemaMetadata`'s loop over a direct child of
the object: skip non-`property` children and those missing a key or value
node; otherwise dispatch on the key's value — `title`/`description` are set
from string values, `type` from a string value verbatim or from an array
value as the `" | "`-join of its string elements (left unset when the array
has no string elements); every other key or value shape is ignored. -/
def metaStep (metadata : SchemaMetadata) (property : JsonNode) : SchemaMetadata :=
  if property.type ≠ NodeType.property then metadata
  else
    match property.children.get? 0, property.children.get? 1 with
    | some keyNode, some valueNode =>
      if keyNode.value = some (JValue.s "title") then
        if valueNode.type = NodeType.string then
          { metadata with title := some (jsString valueNode.value) }
        else metadata
      else if keyNode.value = some (JValue.s "description") then
        if valueNode.type = NodeType.string then
          { metadata with description := some (jsString valueNode.value) }
        else metadata
      else if keyNode.value = some (JValue.s "type") then
        if valueNode.type = NodeType.string then
          { metadata with type := some (jsString valueNode.value) }
        else if valueNode.type = NodeType.array then
          let types := (valueNode.children.toList.filter
            (fun c => c.type = NodeType.string)).map (fun c => jsString c.value)
          if types ≠ [] then { metadata with type := some (String.intercalate " | " types) }
          else metadata
        else metadata
      else metadata
    | _, _ => metadata

/-- `extractSchemaMetadata` from `src/extension.ts`: `{}` unless the node is
an object, else a left fold of `metaStep` over the object's direct children
in document order. -/
def extractSchemaMetadata (targetNode : JsonNode) : SchemaMetadata :=
  if targetNode.type ≠ NodeType.object then {}
  else targetNode.children.toList.foldl metaStep {}

/-- A well-formed `"title": s` property node (offsets immaterial to the
extractor). -/
def titlePropNode (s : String) : JsonNode :=
  .mk .property none 0 0 (.cons (.mk .string (some (.s "title")) 0 0 .nil)
    (.cons (.mk .string (some (.s s)) 0 0 .nil) .nil))

/-- Syntax tree of the metadata example `{"title":"Foo","type":["string","null"]}`. -/
def c7node : JsonNode :=
  .mk .object none 0 40 (.cons (titlePropNode "Foo") (.cons
    (.mk .property none 16 23 (.cons (.mk .string (some (.s "type")) 16 6 .nil) (.cons
      (.mk .array none 23 17 (.cons (.mk .string (some (.s "string")) 24 8 .nil)
        (.cons (.mk .string (some (.s "null")) 33 6 .nil) .nil)))
      .nil)))
    .nil))

/-- An object whose `type` array has no string elements. -/
def c7nodeNoStrings : JsonNode :=
  .mk .object none 0 12 (.cons
    (.mk .property none 1 10 (.cons (.mk .string (some (.s "type")) 1 6 .nil) (.cons
      (.mk .array none 8 3 (.cons (.mk .number (some (.n 1)) 9 1 .nil) .nil))
      .nil)))
    .nil)

/-- C7: the extractor returns the empty record for every non-object node; on
the object `{"title":"Foo","type":["string","null"]}` it yields
`{title:"Foo", type:"string | null"}`; an all-non-string `type` array
leaves the record empty; and a later well-formed `title` property always
overwrites whatever the earlier children produced (last-wins over the
direct children in document order). -/
theorem claim_C7_metadata :
    (∀ node : JsonNode, node.type ≠ NodeType.object → extractSchemaMetadata node = {}) ∧
    extractSchemaMetadata c7node =
      { title := some "Foo", description := none, type := some "string | null" } ∧
    extractSchemaMetadata c7nodeNoStrings = { title := none, description := none, type := none } ∧
    (∀ (v : Option JValue) (o l : Nat) (cs : JsonNodeList) (s : String),
        (extractSchemaMetadata (.mk .object v o l
          (cs.append (.cons (titlePropNode s) .nil)))).title = some s) := by
  refine ⟨?_, by decide, by decide, ?_⟩
  · intro node h
    unfold extractSchemaMetadata
    simp [h]
  · intro v o l cs s
    unfold extractSchemaMetadata
    simp only [JsonNode.type, JsonNode.children, JsonNodeList.toList_append,
      List.foldl_append]
    simp [JsonNodeList.toList, metaStep, titlePropNode, JsonNode.type, JsonNode.value,
      jsString, JsonNodeList.get?]

/-- Witness for C7: the non-object clause applied to a string node. -/
theorem claim_C7_metadata_witness :
    extractSchemaMetadata (.mk .string (some (.s "x")) 0 3 .nil) = {} := by
  exact claim_C7_metadata.1 (.mk .string (some (.s "x")) 0 3 .nil) (by decide)

/-- Severity of a finding; the scanner only ever emits `Error`. -/
inductive Severity : Type where
  | error
deriving DecidableEq, Repr

/-- A validation finding (`vscode.Diagnostic`): the source extent of the
offending `$ref` value node (offset/length, from which the editor range is
derived) and the message. -/
structure Diagnostic : Type where
  offset : Nat
  length : Nat
  message : String
  severity : Severity
deriving DecidableEq, Repr

/-- `validateReference` from `src/extension.ts`: split the trimmed reference
at its first `#`; an unresolvable file part yields the `Cannot resolve
reference` finding; a target that fails to load yields `File not found`
(naming `current file` for the empty file part); a non-empty pointer whose
target lookup fails yields `Invalid JSON pointer`; otherwise no finding. -/
def validateReference (p : Parse) (load : Loader) (document : Document)
    (node : JsonNode) (refValue : String) : List Diagnostic :=
  let trimmed := jsTrim refValue
  let filePart := filePartOf trimmed
  let pointerPart := pointerPartOf trimmed
  match resolveUri document filePart with
  | none =>
    [{ offset := node.offset, length := node.length,
       message := "Cannot resolve reference: \"" ++ refValue ++ "\"",
       severity := Severity.error }]
  | some targetUri =>
    match load targetUri with
    | none =>
      [{ offset := node.offset, length := node.length,
         message := "File not found: \"" ++
           (if filePart = "" then "current file" else filePart) ++ "\"",
         severity := Severity.error }]
    | some targetDocument =>
      if pointerPart ≠ "" then
        let pointerSegments := parseJsonPointer pointerPart
        match findTargetNode p targetDocument pointerSegments with
        | none =>
          [{ offset := node.offset, length := node.length,
             message := "Invalid JSON pointer: \"#" ++ pointerPart ++ "\"",
             severity := Severity.error }]
        | some _ => []
      else []

/-- The `$ref` guard of `findAllRefs` (`src/extension.ts` lines 102-109): a
`property` node whose key node's value is the string `$ref` and whose
value node is a `string` with non-blank content contributes that value
node and its raw (untrimmed) reference text. -/
def refEntry (t : NodeType) (children : JsonNodeList) : Option (JsonNode × String) :=
  if t = NodeType.property then
    match children.get? 0 with
    | some keyNode =>
      if keyNode.value = some (JValue.s "$ref") then
        match children.get? 1 with
        | some valueNode =>
          if valueNode.type = NodeType.string then
            let refValue := jsString valueNode.value
            if jsTrim refValue ≠ "" then some (valueNode, refValue) else none
          else none
        | none => none
      else none
    | none => none
  else none

mutual
/-- `findAllRefs` from `src/extension.ts`: check the node's own `$ref` guard
first (emitting that reference's findings), then recurse into all children
in order — a depth-first pre-order traversal accumulating diagnostics. -/
def findAllRefs (p : Parse) (load : Loader) (document : Document) :
    JsonNode → List Diagnostic
  | .mk t _ _ _ children =>
    (match refEntry t children with
     | some r => validateReference p load document r.1 r.2
     | none => []) ++ findAllRefsList p load document children

/-- Sequential traversal of a child list by `findAllRefs`. -/
def findAllRefsList (p : Parse) (load : Loader) (document : Document) :
    JsonNodeList → List Diagnostic
  | .nil => []
  | .cons c cs =>
    findAllRefs p load document c ++ findAllRefsList p load document cs
end

/-- `validateDocument` from `src/extension.ts`: parse the document's text;
an unparsable document gets the empty finding list; otherwise scan the
whole tree.  (The diagnostic collection is always fully replaced with the
returned list.) -/
def validateDocument (p : Parse) (load : Loader) (document : Document) : List Diagnostic :=
  match p document.text with
  | none => []
  | some root => findAllRefs p load document root

mutual
/-- Specification-side pre-order collection of the scanner's reference
sites: the node's own `$ref` entry (if any) followed by the entries of its
children, depth-first, left to right. -/
def collectRefs : JsonNode → List (JsonNode × String)
  | .mk t _ _ _ children => (refEntry t children).toList ++ collectRefsList children

/-- Pre-order reference collection over a child list. -/
def collectRefsList : JsonNodeList → List (JsonNode × String)
  | .nil => []
  | .cons c cs => collectRefs c ++ collectRefsList cs
end

/-- Classification of one collected reference exactly as claim C1 words it:
`Cannot resolve reference: "<raw>"` when the locator is unresolvable, else
`File not found: "<filePart>"` (or `"current file"`) when loading fails,
else `Invalid JSON pointer: "#<pointerPart>"` when the pointer part is
non-empty and navigation on the freshly parsed target finds nothing, else
no finding. -/
def claimFinding (p : Parse) (load : Loader) (document : Document)
    (r : JsonNode × String) : List Diagnostic :=
  let trimmed := jsTrim r.2
  let filePart := filePartOf trimmed
  let pointerPart := pointerPartOf trimmed
  match resolveUri document filePart with
  | none =>
    [{ offset := r.1.offset, length := r.1.length,
       message := "Cannot resolve reference: \"" ++ r.2 ++ "\"",
       severity := Severity.error }]
  | some targetUri =>
    match load targetUri with
    | none =>
      [{ offset := r.1.offset, length := r.1.length,
         message := "File not found: \"" ++
           (if filePart = "" then "current file" else filePart) ++ "\"",
         severity := Severity.error }]
    | some targetDocument =>
      if pointerPart ≠ "" ∧
          (findTargetNode p targetDocument (parseJsonPointer pointerPart)).isNone = true then
        [{ offset := r.1.offset, length := r.1.length,
           message := "Invalid JSON pointer: \"#" ++ pointerPart ++ "\"",
           severity := Severity.error }]
      else []

theorem validateReference_eq_claimFinding (p : Parse) (load : Loader)
    (document : Document) (node : JsonNode) (refValue : String) :
    validateReference p load document node refValue =
      claimFinding p load document (node, refValue) := by
  simp only [validateReference, claimFinding]
  cases h1 : resolveUri document (filePartOf (jsTrim refValue)) with
  | none => rfl
  | some targetUri =>
    cases h2 : load targetUri with
    | none => simp [h2]
    | some targetDocument =>
      by_cases hp : pointerPartOf (jsTrim refValue) = ""
      · simp [h2, hp]
      · cases hfind : findTargetNode p targetDocument
            (parseJsonPointer (pointerPartOf (jsTrim refValue))) with
        | none => simp [h2, hp, hfind]
        | some located => simp [h2, hp, hfind]

mutual
theorem findAllRefs_eq_collect (p : Parse) (load : Loader) (document : Document) :
    (n : JsonNode) → findAllRefs p load document n =
      (collectRefs n).flatMap (claimFinding p load document)
  | .mk t v o l children => by
    rw [findAllRefs, collectRefs, List.flatMap_append,
      findAllRefsList_eq_collect p load document children]
    congr 1
    cases refEntry t children with
    | none => rfl
    | some r =>
      simp [Option.toList, validateReference_eq_claimFinding]

theorem findAllRefsList_eq_collect (p : Parse) (load : Loader) (document : Document) :
    (cs : JsonNodeList) → findAllRefsList p load document cs =
      (collectRefsList cs).flatMap (claimFinding p load document)
  | .nil => rfl
  | .cons c cs => by
    rw [findAllRefsList, collectRefsList, List.flatMap_append,
      findAllRefs_eq_collect p load document c,
      findAllRefsList_eq_collect p load document cs]
end

/-- C1: the scan is total by construction, returns no findings for an
unparsable document, and otherwise returns — in depth-first pre-order of
the source tree — exactly the claim's classification of every `$ref`
property with a non-blank string value: `Cannot resolve reference` /
`File not found` (with `current file` for the empty file part) /
`Invalid JSON pointer` / no finding. -/
theorem claim_C1_scan_findings :
    ∀ (p : Parse) (load : Loader) (document : Document),
      (p document.text = none → validateDocument p load document = []) ∧
      (∀ root, p document.text = some root →
        validateDocument p load document =
          (collectRefs root).flatMap (claimFinding p load document)) ∧
      (∀ (node : JsonNode) (refValue : String),
        validateReference p load document node refValue =
          claimFinding p load document (node, refValue)) := by
  intro p load document
  refine ⟨?_, ?_, ?_⟩
  · intro h
    unfold validateDocument
    rw [h]
  · intro root h
    unfold validateDocument
    rw [h]
    show findAllRefs p load document root = _
    exact findAllRefs_eq_collect p load document root
  · intro node refValue
    exact validateReference_eq_claimFinding p load document node refValue

/-- The `$ref` value node of the scan example `{"$ref":"#/nope"}`. -/
def val1node : JsonNode :=
  .mk .string (some (.s "#/nope")) 8 8 .nil

/-- Syntax tree of the scan example `{"$ref":"#/nope"}` (source offsets of
that text). -/
def tree1 : JsonNode :=
  .mk .object none 0 17 (.cons
    (.mk .property none 1 15 (.cons (.mk .string (some (.s "$ref")) 1 6 .nil)
      (.cons val1node .nil)))
    .nil)

def doc1 : Document :=
  { uri := Uri.file "/w/a.json", text := "S1" }

def parse1 : Parse :=
  fun s => if s = "S1" then some tree1 else none

/-- A loader that serves only the scan example's own document. -/
def load1 : Loader :=
  fun u => if u = Uri.file "/w/a.json" then some doc1 else none

/-- Witness for C1: scanning `{"$ref":"#/nope"}` (a self-reference whose
pointer does not resolve) produces exactly one `Invalid JSON pointer`
finding over the `$ref` value's source extent. -/
theorem claim_C1_scan_findings_witness :
    validateDocument parse1 load1 doc1 =
      [{ offset := 8, length := 8, message := "Invalid JSON pointer: \"#/nope\"",
         severity := Severity.error }] := by
  have h := (claim_C1_scan_findings parse1 load1 doc1).2.1 tree1 rfl
  rw [h]
  decide

/-- C9: the scan is a pure function of the document's text, its identity,
and the loader's responses — two runs over extensionally equal loaders and
documents with the same text and URI produce identical finding lists. -/
theorem claim_C9_scan_deterministic :
    ∀ (p : Parse) (loadA loadB : Loader) (d1 d2 : Document),
      (∀ u, loadA u = loadB u) → d1.text = d2.text → d1.uri = d2.uri →
      validateDocument p loadA d1 = validateDocument p loadB d2 := by
  intro p loadA loadB d1 d2 hload htext huri
  have hl : loadA = loadB := funext hload
  subst hl
  have hd : d1 = d2 := by
    cases d1
    cases d2
    simp only [Document.mk.injEq]
    exact ⟨huri, htext⟩
  rw [hd]

/-- A loader that always fails. -/
def loadNoneA : Loader :=
  fun _ => none

/-- A loader written differently from `loadNoneA` but extensionally equal to
it. -/
def loadNoneB : Loader :=
  fun u => if u.scheme = "file" then none else none

/-- Witness for C9: scanning the example document under the two
extensionally equal always-failing loaders yields the same findings. -/
theorem claim_C9_scan_deterministic_witness :
    validateDocument parse1 loadNoneA doc1 = validateDocument parse1 loadNoneB doc1 := by
  exact claim_C9_scan_deterministic parse1 loadNoneA loadNoneB doc1 doc1
    (fun u => by by_cases h : u.scheme = "file" <;> simp [loadNoneA, loadNoneB, h]) rfl rfl

/-- `jsonc-parser`'s `contains(node, offset, includeRightBound)` with the
right bound included, as the source always passes `true`. -/
def containsOffset (node : JsonNode) (offset : Nat) : Bool :=
  (node.offset ≤ offset && offset < node.offset + node.length) ||
    (offset == node.offset + node.length)

mutual
/-- Modelled from the spec: `jsonc-parser`'s `findNodeAtOffset` (the
external find-node-at-offset primitive), extended to return the found
node's parent, which the source reads through the tree's parent
back-reference.  A node containing the offset delegates to the first child
that yields a hit, scanning children whose start is at or before the
offset, and otherwise returns itself. -/
def findNodeAtOffsetFrom (offset : Nat) (parent : Option JsonNode) :
    JsonNode → Option (JsonNode × Option JsonNode)
  | .mk t v o l cs =>
    if containsOffset (.mk t v o l cs) offset then
      match findNodeAtOffsetChildren offset (.mk t v o l cs) cs with
      | some r => some r
      | none => some (.mk t v o l cs, parent)
    else none

/-- Child scan of `findNodeAtOffset`: children are tried in order while
`child.offset <= offset`; the first recursive hit wins; a child whose
start lies past the offset stops the scan. -/
def findNodeAtOffsetChildren (offset : Nat) (parent : JsonNode) :
    JsonNodeList → Option (JsonNode × Option JsonNode)
  | .nil => none
  | .cons c cs =>
    if c.offset ≤ offset then
      match findNodeAtOffsetFrom offset (some parent) c with
      | some r => some r
      | none => findNodeAtOffsetChildren offset parent cs
    else none
end

/-- `getRefNodeAtPosition` from `src/extension.ts`: parse the text, find the
innermost node covering the offset, and accept it only when it is a string
node whose parent is a `property` whose key node's value is `$ref`. -/
def getRefNodeAtPosition (p : Parse) (document : Document) (offset : Nat) :
    Option JsonNode :=
  match p document.text with
  | none => none
  | some root =>
    match findNodeAtOffsetFrom offset none root with
    | none => none
    | some (node, parentOpt) =>
      if node.type = NodeType.string then
        match parentOpt with
        | none => none
        | some propertyNode =>
          if propertyNode.type = NodeType.property then
            match propertyNode.children.get? 0 with
            | some keyNode =>
              if keyNode.value = some (JValue.s "$ref") then some node else none
            | none => none
          else none
      else none

/-- The target-side fields of a resolved reference
(`Omit<ResolvedReference, 'refValue' | 'sourceRange'>` in the source). -/
structure TargetResolution : Type where
  targetUri : Uri
  targetDocument : Document
  targetOffset : Nat
  targetLength : Nat
  metadata : SchemaMetadata
  pointerDisplay : String
  pointerFragment : Option String
deriving DecidableEq, Repr

/-- A fully resolved reference (`ResolvedReference` in the source), with
ranges carried as offset/length pairs. -/
structure ResolvedReference : Type where
  refValue : String
  sourceOffset : Nat
  sourceLength : Nat
  targetUri : Uri
  targetDocument : Document
  targetOffset : Nat
  targetLength : Nat
  metadata : SchemaMetadata
  pointerDisplay : String
  pointerFragment : Option String
deriving DecidableEq, Repr

/-- `resolveTargetDocument` from `src/extension.ts`: split the trimmed
reference, resolve the URI (`none` on failure), load the target (`none` on
failure), navigate the decoded pointer in the freshly parsed target
(`none` on failure), then package the target extent, extracted metadata,
and the `#`-prefixed pointer display. -/
def resolveTargetDocument (p : Parse) (load : Loader) (document : Document)
    (refValue : String) : Option TargetResolution :=
  let trimmed := jsTrim refValue
  let filePart := filePartOf trimmed
  let pointerPart := pointerPartOf trimmed
  let pointerDisplay := if pointerPart ≠ "" then "#" ++ pointerPart else ""
  match resolveUri document filePart with
  | none => none
  | some targetUri =>
    match load targetUri with
    | none => none
    | some targetDocument =>
      let pointerSegments := parseJsonPointer pointerPart
      match findTargetNode p targetDocument pointerSegments with
      | none => none
      | some targetNode =>
        some { targetUri := targetUri, targetDocument := targetDocument,
               targetOffset := targetNode.offset, targetLength := targetNode.length,
               metadata := extractSchemaMetadata targetNode,
               pointerDisplay := pointerDisplay,
               pointerFragment := if pointerPart ≠ "" then some pointerPart else none }

/-- `resolveReference` from `src/extension.ts` (the interactive lookup):
require a `$ref` string node at the offset with non-blank content, resolve
the target, and combine the source extent with the target resolution;
every failure yields `none`. -/
def resolveReference (p : Parse) (load : Loader) (document : Document)
    (offset : Nat) : Option ResolvedReference :=
  match getRefNodeAtPosition p document offset with
  | none => none
  | some node =>
    let refValue := jsString node.value
    if jsTrim refValue = "" then none
    else
      match resolveTargetDocument p load document refValue with
      | none => none
      | some rt =>
        some { refValue := refValue, sourceOffset := node.offset,
               sourceLength := node.length, targetUri := rt.targetUri,
               targetDocument := rt.targetDocument, targetOffset := rt.targetOffset,
               targetLength := rt.targetLength, metadata := rt.metadata,
               pointerDisplay := rt.pointerDisplay,
               pointerFragment := rt.pointerFragment }

theorem resolveTargetDocument_none_of_uri (p : Parse) (load : Loader)
    (document : Document) (refValue : String)
    (h : resolveUri document (filePartOf (jsTrim refValue)) = none) :
    resolveTargetDocument p load document refValue = none := by
  simp only [resolveTargetDocument]
  rw [h]

theorem resolveTargetDocument_none_of_load (p : Parse) (load : Loader)
    (document : Document) (refValue : String) (targetUri : Uri)
    (h1 : resolveUri document (filePartOf (jsTrim refValue)) = some targetUri)
    (h2 : load targetUri = none) :
    resolveTargetDocument p load document refValue = none := by
  simp only [resolveTargetDocument]
  rw [h1]
  simp [h2]

theorem resolveTargetDocument_none_of_find (p : Parse) (load : Loader)
    (document : Document) (refValue : String) (targetUri : Uri)
    (targetDocument : Document)
    (h1 : resolveUri document (filePartOf (jsTrim refValue)) = some targetUri)
    (h2 : load targetUri = some targetDocument)
    (h3 : findTargetNode p targetDocument
        (parseJsonPointer (pointerPartOf (jsTrim refValue))) = none) :
    resolveTargetDocument p load document refValue = none := by
  simp only [resolveTargetDocument]
  rw [h1]
  simp [h2, h3]

theorem resolveTargetDocument_pointerDisplay (p : Parse) (load : Loader)
    (document : Document) (refValue : String) (rt : TargetResolution)
    (h : resolveTargetDocument p load document refValue = some rt) :
    rt.pointerDisplay =
      (if pointerPartOf (jsTrim refValue) ≠ "" then
        "#" ++ pointerPartOf (jsTrim refValue) else "") := by
  simp only [resolveTargetDocument] at h
  cases h1 : resolveUri document (filePartOf (jsTrim refValue)) with
  | none => rw [h1] at h; cases h
  | some targetUri =>
    rw [h1] at h
    cases h2 : load targetUri with
    | none => simp [h2] at h
    | some targetDocument =>
      simp only [h2] at h
      cases h3 : findTargetNode p targetDocument
          (parseJsonPointer (pointerPartOf (jsTrim refValue))) with
      | none => simp [h3] at h
      | some targetNode =>
        simp only [h3, Option.some.injEq] at h
        subst h
        rfl

theorem resolveReference_none_of_rtd (p : Parse) (load : Loader)
    (document : Document) (offset : Nat) (node : JsonNode)
    (hnode : getRefNodeAtPosition p document offset = some node)
    (hrtd : resolveTargetDocument p load document (jsString node.value) = none) :
    resolveReference p load document offset = none := by
  unfold resolveReference
  rw [hnode]
  by_cases ht : jsTrim (jsString node.value) = "" <;> simp [ht, hrtd]

/-- C2: the interactive lookup is total and silently yields `none` when the
offset does not hit a `$ref` string node, when the trimmed reference is
blank, when the locator is unresolvable, when the target fails to load, or
when the freshly parsed target yields nothing for the pointer (including
an unparsable target); and every successful result carries
`pointerDisplay` equal to the trimmed reference's pointer text prefixed
with `#` (empty when the reference has no pointer part). -/
theorem claim_C2_lookup_silent :
    ∀ (p : Parse) (load : Loader) (document : Document) (offset : Nat),
      (getRefNodeAtPosition p document offset = none →
        resolveReference p load document offset = none) ∧
      (∀ node, getRefNodeAtPosition p document offset = some node →
        jsTrim (jsString node.value) = "" →
        resolveReference p load document offset = none) ∧
      (∀ node, getRefNodeAtPosition p document offset = some node →
        resolveUri document (filePartOf (jsTrim (jsString node.value))) = none →
        resolveReference p load document offset = none) ∧
      (∀ node targetUri, getRefNodeAtPosition p document offset = some node →
        resolveUri document (filePartOf (jsTrim (jsString node.value))) = some targetUri →
        load targetUri = none →
        resolveReference p load document offset = none) ∧
      (∀ node targetUri targetDocument,
        getRefNodeAtPosition p document offset = some node →
        resolveUri document (filePartOf (jsTrim (jsString node.value))) = some targetUri →
        load targetUri = some targetDocument →
        findTargetNode p targetDocument
          (parseJsonPointer (pointerPartOf (jsTrim (jsString node.value)))) = none →
        resolveReference p load document offset = none) ∧
      (∀ rr, resolveReference p load document offset = some rr →
        rr.pointerDisplay =
          (if pointerPartOf (jsTrim rr.refValue) ≠ "" then
            "#" ++ pointerPartOf (jsTrim rr.refValue) else "")) := by
  intro p load document offset
  refine ⟨?_, ?_, ?_, ?_, ?_, ?_⟩
  · intro h
    unfold resolveReference
    rw [h]
  · intro node hnode ht
    unfold resolveReference
    rw [hnode]
    simp [ht]
  · intro node hnode huri
    exact resolveReference_none_of_rtd p load document offset node hnode
      (resolveTargetDocument_none_of_uri p load document (jsString node.value) huri)
  · intro node targetUri hnode huri hload
    exact resolveReference_none_of_rtd p load document offset node hnode
      (resolveTargetDocument_none_of_load p load document (jsString node.value)
        targetUri huri hload)
  · intro node targetUri targetDocument hnode huri hload hfind
    exact resolveReference_none_of_rtd p load document offset node hnode
      (resolveTargetDocument_none_of_find p load document (jsString node.value)
        targetUri targetDocument huri hload hfind)
  · intro rr h
    unfold resolveReference at h
    cases hg : getRefNodeAtPosition p document offset with
    | none => rw [hg] at h; cases h
    | some node =>
      rw [hg] at h
      by_cases ht : jsTrim (jsString node.value) = ""
      · simp [ht] at h
      · simp only [if_neg ht] at h
        cases hr : resolveTargetDocument p load document (jsString node.value) with
        | none => simp [hr] at h
        | some rt =>
          simp only [hr, Option.some.injEq] at h
          subst h
          exact resolveTargetDocument_pointerDisplay p load document
            (jsString node.value) rt hr

/-- The key node of the `$ref` property in the lookup example
`{"$ref":"#/x","x":1}`. -/
def key2node : JsonNode :=
  .mk .string (some (.s "$ref")) 1 6 .nil

/-- The `$ref` value node `"#/x"` of the lookup example. -/
def val2node : JsonNode :=
  .mk .string (some (.s "#/x")) 8 5 .nil

/-- The node `1` at pointer `/x` of the lookup example. -/
def xval2node : JsonNode :=
  .mk .number (some (.n 1)) 18 1 .nil

/-- Syntax tree of the lookup example `{"$ref":"#/x","x":1}` with that
text's source offsets. -/
def tree2 : JsonNode :=
  .mk .object none 0 20 (.cons
    (.mk .property none 1 12 (.cons key2node (.cons val2node .nil)))
    (.cons (.mk .property none 14 5 (.cons (.mk .string (some (.s "x")) 14 3 .nil)
      (.cons xval2node .nil)))
      .nil))

def doc2 : Document :=
  { uri := Uri.file "/w/c.json", text := "S2" }

def parse2 : Parse :=
  fun s => if s = "S2" then some tree2 else none

/-- A loader serving only the lookup example's own document. -/
def load2 : Loader :=
  fun u => if u = Uri.file "/w/c.json" then some doc2 else none

/-- The resolved reference produced by looking up offset 10 (inside the
`"#/x"` string) of the lookup example. -/
def rr2 : ResolvedReference :=
  { refValue := "#/x", sourceOffset := 8, sourceLength := 5,
    targetUri := Uri.file "/w/c.json", targetDocument := doc2,
    targetOffset := 18, targetLength := 1, metadata := {},
    pointerDisplay := "#/x", pointerFragment := some "/x" }

/-- Witness for C2: at offset 10 — inside the `"#/x"` string of
`{"$ref":"#/x","x":1}` — the lookup succeeds and its `pointerDisplay` is
the verbatim pointer text `#/x`. -/
theorem claim_C2_lookup_silent_witness :
    (resolveReference parse2 load2 doc2 10).map ResolvedReference.pointerDisplay =
      some "#/x" := by
  have h : resolveReference parse2 load2 doc2 10 = some rr2 := by decide
  have h2 := (claim_C2_lookup_silent parse2 load2 doc2 10).2.2.2.2.2 rr2 h
  rw [h, Option.map_some', h2]
  decide

/-- The target document a lookup reaches when it treats the literal key
text `$ref` as a relative path from `/w/c.json`. -/
def refFileDoc : Document :=
  { uri := Uri.file "/w/$ref", text := "RT" }

/-- Root tree of `refFileDoc` (an empty object). -/
def rtTree : JsonNode :=
  .mk .object none 0 2 .nil

/-- Parser for the C10 scenario: the source document's text and the
`$ref`-named file's text both parse. -/
def parse10 : Parse :=
  fun s => if s = "S2" then some tree2 else if s = "RT" then some rtTree else none

/-- Loader for the C10 scenario: a file literally named `$ref` exists next
to the source document. -/
def load10 : Loader :=
  fun u => if u = Uri.file "/w/$ref" then some refFileDoc else none

/-- C10: placing the cursor at offset 3 — inside the key string `"$ref"`,
not the value — still passes `getRefNodeAtPosition`'s guard (the key is a
string whose parent is a `$ref` property), so the lookup resolves the
literal text `$ref` as a relative path and, because a file of that name
exists next to the document, returns a resolved target for
`/w/$ref` with an empty pointer display instead of returning `none`. -/
theorem claim_C10_key_string_accepted :
    getRefNodeAtPosition parse10 doc2 3 = some key2node ∧
    (resolveReference parse10 load10 doc2 3).map
        (fun rr => (rr.refValue, rr.targetUri, rr.pointerDisplay)) =
      some ("$ref", Uri.file "/w/$ref", "") := by
  exact ⟨rfl, rfl⟩

/-- Witness for C5: the spec's unsupported-scheme example — an `http` URI is
the one shape the locator refuses, while a blank file part resolves. -/
theorem claim_C5_unresolvable_iff_witness :
    resolveUri workDoc "http://example.com/s.json" = none ∧
    resolveUri workDoc "" = some workDoc.uri := by
  constructor
  · exact (claim_C5_unresolvable_iff workDoc "http://example.com/s.json").mpr
      (by constructor <;> decide)
  · decide
